import Mathlib

/-!
Shallow embedding of the dispatch engine in `src/core/queue/event-queue.ts`
(class `EventQueue`): the pending/archive buffers, `dispatch`, `register`,
the `flush` drain loop (a `pWhile` on `queue.length > 0`, rendered here with
explicit fuel) and the staged pipeline `flushOne`.

`Context` (src/core/context) and `attempt`/`ensure` (src/core/queue/delivery)
are not part of the sources; they are modelled from the spec where noted.
Side effects on an event's log/metrics channels, and each plugin `process`
call, are recorded in an explicit trace.
-/

namespace AnalyticsNext

/-- Stage tags of an extension, from `p.type === 'before' | 'enrichment' |
'destination'` in `flushOne`. -/
inductive PluginType where
  | before
  | enrichment
  | destination
deriving DecidableEq, Repr

/-- Modelled from the spec: the `Context` class is not under src/. Per §3 and §6
an event is an opaque payload with a seal flag that transitions open → sealed;
its log/metrics side channels are modelled as trace output of the engine. -/
structure Context where
  payload : Nat
  sealedFlag : Bool
deriving DecidableEq, Repr

/-- Modelled from the spec: `seal()` (§6) makes the event immutable; the flag
records the open → sealed transition. -/
def Context.seal (c : Context) : Context :=
  { c with sealedFlag := true }

/-- An extension (plugin): stage tag, `isLoaded()` state, and `process`, which
yields the transformed event or a failure (`event-or-error`, spec §3). -/
structure Extension where
  type : PluginType
  loaded : Bool
  process : Context → Except Unit Context

/-- One observable step: a plugin `process` call (stage, index within its
stage group, the event it received), the seal transition, or a metrics call. -/
inductive TraceEv where
  | proc (stage : PluginType) (idx : Nat) (received : Context)
  | sealMark (c : Context)
  | stat (name : String)
deriving DecidableEq, Repr

/-- Modelled from the spec: `attempt` lives in src/core/queue/delivery.ts,
which is not under src/. Per §6 it runs the plugin's `process` on the event
and yields the transformed event or the failure as a value
(`Context | Error`). -/
def attempt (ctx : Context) (xt : Extension) : Except Unit Context :=
  xt.process ctx

/-- Modelled from the spec: `ensure` lives in delivery.ts, not under src/.
Per §4.4 step 3 a pre plugin may transform the event and its failure aborts
the whole pipeline, so `ensure` propagates the failure to `flushOne`. -/
def ensure (ctx : Context) (xt : Extension) : Except Unit Context :=
  xt.process ctx

/-- The `before` loop of `flushOne`: run each pre plugin sequentially through
`ensure`; a failure aborts, a success replaces the event. -/
def runPre : List Extension → Nat → Context → List TraceEv × Except Unit Context
  | [], _, ctx => ([], Except.ok ctx)
  | xt :: rest, i, ctx =>
    match ensure ctx xt with
    | Except.error e => ([TraceEv.proc PluginType.before i ctx], Except.error e)
    | Except.ok c =>
      (TraceEv.proc PluginType.before i ctx :: (runPre rest (i + 1) c).1,
       (runPre rest (i + 1) c).2)

/-- The `enrichment` loop of `flushOne`: run each enrichment plugin through
`attempt`; only a successful transformation is applied (`temp instanceof
Context`), a failure leaves the event as it was. -/
def runEnrich : List Extension → Nat → Context → List TraceEv × Context
  | [], _, ctx => ([], ctx)
  | xt :: rest, i, ctx =>
    let next := match attempt ctx xt with
      | Except.ok c => c
      | Except.error _ => ctx
    (TraceEv.proc PluginType.enrichment i ctx :: (runEnrich rest (i + 1) next).1,
     (runEnrich rest (i + 1) next).2)

/-- The destination fan-out of `flushOne`: `destinations.map((d) =>
attempt(ctx, d))` — every destination receives the same event — then
`Promise.all`. Modelled from the spec for the missing delivery.ts part:
per §4.4 step 6 a failure from any destination plugin propagates as the
overall pipeline failure. -/
def runDest (xts : List Extension) (ctx : Context) : List TraceEv × Except Unit Unit :=
  let results := xts.map (fun xt => attempt ctx xt)
  let tr := (List.range xts.length).map (fun i => TraceEv.proc PluginType.destination i ctx)
  if results.all (fun r => match r with | Except.ok _ => true | Except.error _ => false)
    then (tr, Except.ok ())
    else (tr, Except.error ())

/-- `EventQueue.isReady`: every registered extension reports loaded. -/
def isReady (exts : List Extension) : Bool :=
  exts.all (fun p => p.loaded)

/-- `const before = this.config.extensions.filter((p) => p.type === 'before')`. -/
def preGroup (exts : List Extension) : List Extension :=
  exts.filter (fun p => p.type == PluginType.before)

/-- `const enrichment = this.config.extensions.filter((p) => p.type === 'enrichment')`. -/
def enrGroup (exts : List Extension) : List Extension :=
  exts.filter (fun p => p.type == PluginType.enrichment)

/-- `const destinations = this.config.extensions.filter((p) => p.type === 'destination')`. -/
def dstGroup (exts : List Extension) : List Extension :=
  exts.filter (fun p => p.type == PluginType.destination)

/-- `EventQueue.flushOne`: readiness gate (early `return` of `undefined` when
not ready), partition by stage tag, pre stage, enrichment stage, `ctx.seal()`,
destination fan-out, then `message_delivered`. Yields the call trace and
either the delivered event (`some`), the not-ready no-op (`none`), or the
propagated pipeline failure. -/
def flushOne (exts : List Extension) (ctx : Context) :
    List TraceEv × Except Unit (Option Context) :=
  if isReady exts = false then ([], Except.ok none)
  else
    match runPre (preGroup exts) 0 ctx with
    | (t1, Except.error e) => (t1, Except.error e)
    | (t1, Except.ok c1) =>
      let (t2, c2) := runEnrich (enrGroup exts) 0 c1
      let c3 := c2.seal
      let (t3, res) := runDest (dstGroup exts) c3
      match res with
      | Except.error e => (t1 ++ t2 ++ [TraceEv.sealMark c3] ++ t3, Except.error e)
      | Except.ok _ =>
        (t1 ++ t2 ++ [TraceEv.sealMark c3] ++ t3 ++ [TraceEv.stat "message_delivered"],
         Except.ok (some c3))

/-- One iteration of the `pWhile` body in `flush`: pop `ctx`, try `flushOne`;
on success gauge `delivered` and push onto `flushed`; on error increment
`delivery_failed` and re-enqueue `ctx` at the tail of the queue. -/
def flushIter (exts : List Extension) (ctx : Context) (rest fl : List Context) :
    List Context × List Context × List TraceEv :=
  match flushOne exts ctx with
  | (t1, Except.ok _) => (rest, fl ++ [ctx], t1 ++ [TraceEv.stat "delivered"])
  | (t1, Except.error _) => (rest ++ [ctx], fl, t1 ++ [TraceEv.stat "delivery_failed"])

/-- The `pWhile(() => this.queue.length > 0, ...)` loop of `flush`, with
explicit fuel. The Bool records whether the loop exited (the source loop has
no fuel: `false` means the real loop has not terminated within `n` steps).
Returns (exited, queue, flushed, trace). -/
def flushAux (exts : List Extension) :
    Nat → List Context → List Context → List TraceEv →
    Bool × List Context × List Context × List TraceEv
  | 0, q, fl, tr => (q.isEmpty, q, fl, tr)
  | n + 1, q, fl, tr =>
    match q with
    | [] => (true, [], fl, tr)
    | ctx :: rest =>
      let s := flushIter exts ctx rest fl
      flushAux exts n s.1 s.2.1 (tr ++ s.2.2)

/-- `flush()` terminates on this engine state: some amount of fuel makes the
drain loop exit. -/
def flushReturns (exts : List Extension) (q : List Context) : Prop :=
  ∃ n, (flushAux exts n q [] []).1 = true

/-- Engine state: pending buffer `queue`, `archive`, and the registered
extensions (`config.extensions`). -/
structure EventQueue where
  queue : List Context
  archive : List Context
  extensions : List Extension

/-- The private constructor reached through `EventQueue.init`: empty queue,
empty archive, the configured extensions (their `load` is the plugins' own
affair, spec §1). -/
def EventQueue.init (exts : List Extension) : EventQueue :=
  { queue := [], archive := [], extensions := exts }

/-- `dispatch(ctx)`: log, increment `message_dispatched`, push onto the queue,
resolve with the event itself. (`scheduleFlush` only arms a timer and touches
no buffer.) -/
def dispatch (st : EventQueue) (ctx : Context) :
    EventQueue × Context × List TraceEv :=
  ({ st with queue := st.queue ++ [ctx] }, ctx, [TraceEv.stat "message_dispatched"])

/-- `register(extension)`: append to the configuration (its `load` is the
plugin's own affair). -/
def register (st : EventQueue) (xt : Extension) : EventQueue :=
  { st with extensions := st.extensions ++ [xt] }

/-- `flush()` on an engine state, with fuel for the drain loop: runs
`flushAux` on the pending buffer and writes the leftover queue back. Returns
(exited, state, flushed, trace). -/
def flushQ (st : EventQueue) (n : Nat) :
    Bool × EventQueue × List Context × List TraceEv :=
  let r := flushAux st.extensions n st.queue [] []
  (r.1, { st with queue := r.2.1 }, r.2.2.1, r.2.2.2)

/-- States reachable from construction by the engine's operations. -/
inductive Reachable : EventQueue → Prop where
  | init (exts : List Extension) : Reachable (EventQueue.init exts)
  | dispatchStep (st : EventQueue) (c : Context) :
      Reachable st → Reachable (dispatch st c).1
  | registerStep (st : EventQueue) (x : Extension) :
      Reachable st → Reachable (register st x)
  | flushStep (st : EventQueue) (n : Nat) :
      Reachable st → Reachable (flushQ st n).2.1

/-- Whether a trace entry is a plugin `process` call. -/
def isProc : TraceEv → Bool
  | TraceEv.proc _ _ _ => true
  | _ => false

/-- Number of plugin `process` calls recorded in a trace. -/
def procCount (tr : List TraceEv) : Nat :=
  (tr.filter isProc).length

/-- A sequence of `dispatch` calls with no intervening flush. -/
def dispatchAll (st : EventQueue) : List Context → EventQueue
  | [] => st
  | c :: cs => dispatchAll (dispatch st c).1 cs

/-- A destination plugin whose `process` always fails. -/
def destFail : Extension :=
  { type := PluginType.destination, loaded := true, process := fun _ => Except.error () }

/-- A destination plugin whose `process` always succeeds. -/
def destOk : Extension :=
  { type := PluginType.destination, loaded := true, process := fun c => Except.ok c }

/-- A pre ('before') plugin whose `process` always fails. -/
def beforeFail : Extension :=
  { type := PluginType.before, loaded := true, process := fun _ => Except.error () }

/-- An enrichment plugin whose `process` always fails. -/
def enrichFail : Extension :=
  { type := PluginType.enrichment, loaded := true, process := fun _ => Except.error () }

/-- A plugin that reports not loaded. -/
def notLoaded : Extension :=
  { type := PluginType.destination, loaded := false, process := fun c => Except.ok c }

/-- A destination plugin that fails exactly on events with payload 0 and
succeeds on every other event. -/
def destFailZero : Extension :=
  { type := PluginType.destination, loaded := true,
    process := fun c => if c.payload = 0 then Except.error () else Except.ok c }

/-- A concrete event. -/
def ev (n : Nat) : Context :=
  { payload := n, sealedFlag := false }

/-! Helper lemmas about the drain loop and the pipeline stages. -/

theorem flushIter_of_error (exts : List Extension) (ctx : Context) (rest fl : List Context)
    (h : (flushOne exts ctx).2 = Except.error ()) :
    flushIter exts ctx rest fl =
      (rest ++ [ctx], fl, (flushOne exts ctx).1 ++ [TraceEv.stat "delivery_failed"]) := by
  rcases hfo : flushOne exts ctx with ⟨t1, r⟩
  cases r with
  | ok v => rw [hfo] at h; simp at h
  | error e => simp [flushIter, hfo]

theorem flushIter_of_ok (exts : List Extension) (ctx : Context) (rest fl : List Context)
    (v : Option Context) (h : (flushOne exts ctx).2 = Except.ok v) :
    flushIter exts ctx rest fl =
      (rest, fl ++ [ctx], (flushOne exts ctx).1 ++ [TraceEv.stat "delivered"]) := by
  rcases hfo : flushOne exts ctx with ⟨t1, r⟩
  cases r with
  | ok w => simp [flushIter, hfo]
  | error e => rw [hfo] at h; simp at h

theorem flushAux_stuck (exts : List Extension)
    (hfail : ∀ c, (flushOne exts c).2 = Except.error ()) :
    ∀ n (q fl : List Context) (tr : List TraceEv),
      q ≠ [] → (flushAux exts n q fl tr).1 = false := by
  intro n
  induction n with
  | zero =>
    intro q fl tr hq
    cases q with
    | nil => exact absurd rfl hq
    | cons a l => simp [flushAux]
  | succ m ih =>
    intro q fl tr hq
    cases q with
    | nil => exact absurd rfl hq
    | cons ctx rest =>
      have hi := flushIter_of_error exts ctx rest fl (hfail ctx)
      simp only [flushAux, hi]
      exact ih (rest ++ [ctx]) fl _ (by simp)

theorem flushAux_stuck_mem (exts : List Extension) :
    ∀ (n : Nat) (q fl : List Context) (tr : List TraceEv) (c : Context),
      c ∈ q → (flushOne exts c).2 = Except.error () →
      (flushAux exts n q fl tr).1 = false := by
  intro n
  induction n with
  | zero =>
    intro q fl tr c hc herr
    cases q with
    | nil => simp at hc
    | cons a l => simp [flushAux]
  | succ m ih =>
    intro q fl tr c hc herr
    cases q with
    | nil => simp at hc
    | cons ctx rest =>
      cases hres : (flushOne exts ctx).2 with
      | error u =>
        cases u
        have hi := flushIter_of_error exts ctx rest fl hres
        simp only [flushAux, hi]
        refine ih (rest ++ [ctx]) fl _ c ?_ herr
        rcases List.mem_cons.mp hc with h1 | h1
        · subst h1; simp
        · simp [h1]
      | ok v =>
        have hi := flushIter_of_ok exts ctx rest fl v hres
        simp only [flushAux, hi]
        refine ih rest (fl ++ [ctx]) _ c ?_ herr
        rcases List.mem_cons.mp hc with h1 | h1
        · subst h1
          rw [herr] at hres
          exact Except.noConfusion hres
        · exact h1

theorem flushAux_all_ok (exts : List Extension) :
    ∀ (q fl : List Context) (tr : List TraceEv),
      (∀ c ∈ q, ∃ v, (flushOne exts c).2 = Except.ok v) →
      (flushAux exts q.length q fl tr).1 = true := by
  intro q
  induction q with
  | nil => intro fl tr _h; simp [flushAux]
  | cons ctx rest ih =>
    intro fl tr h
    obtain ⟨v, hv⟩ := h ctx (by simp)
    have hi := flushIter_of_ok exts ctx rest fl v hv
    simp only [List.length_cons, flushAux, hi]
    exact ih (fl ++ [ctx]) _ (fun c hc => h c (by simp [hc]))

theorem flushOne_beforeFail_err (c : Context) :
    (flushOne [beforeFail] c).2 = Except.error () := rfl

theorem flushOne_destsFail_err (c : Context) :
    (flushOne [destFail, destOk] c).2 = Except.error () := rfl

theorem runDest_trace (xts : List Extension) (c : Context) :
    (runDest xts c).1 =
      (List.range xts.length).map (fun i => TraceEv.proc PluginType.destination i c) := by
  simp only [runDest]
  split <;> rfl

theorem isReady_false_of_unloaded (exts : List Extension) (p : Extension)
    (hm : p ∈ exts) (hl : p.loaded = false) : isReady exts = false := by
  cases h : isReady exts with
  | false => rfl
  | true =>
    exfalso
    unfold isReady at h
    have := List.all_eq_true.mp h p hm
    rw [hl] at this
    exact Bool.noConfusion this

theorem flushAux_notReady (exts : List Extension) (h : isReady exts = false) :
    ∀ (q fl : List Context) (tr : List TraceEv),
      flushAux exts q.length q fl tr =
        (true, [], fl ++ q, tr ++ List.replicate q.length (TraceEv.stat "delivered")) := by
  intro q
  induction q with
  | nil => intro fl tr; simp [flushAux]
  | cons a l ih =>
    intro fl tr
    have h1 : flushOne exts a = ([], Except.ok none) := by simp [flushOne, h]
    have h2 : flushIter exts a l fl = (l, fl ++ [a], [TraceEv.stat "delivered"]) := by
      simp [flushIter, h1]
    simp only [List.length_cons, flushAux, h2]
    rw [ih (fl ++ [a]) (tr ++ [TraceEv.stat "delivered"])]
    simp [List.replicate_succ]

theorem procCount_replicate_stat (n : Nat) (s : String) :
    procCount (List.replicate n (TraceEv.stat s)) = 0 := by
  induction n with
  | zero => rfl
  | succ m _ =>
    rw [List.replicate_succ]
    simp [procCount, List.filter, isProc]

theorem flushOne_eq_notReady (exts : List Extension) (ctx : Context)
    (hready : isReady exts = false) :
    flushOne exts ctx = ([], Except.ok none) := by
  simp [flushOne, hready]

theorem flushOne_eq_preFail (exts : List Extension) (ctx : Context) (t1 : List TraceEv)
    (hready : isReady exts = true)
    (hp : runPre (preGroup exts) 0 ctx = (t1, Except.error ())) :
    flushOne exts ctx = (t1, Except.error ()) := by
  unfold flushOne
  rw [hready, hp]
  rfl

theorem flushOne_eq_destFail (exts : List Extension) (ctx c1 c2 : Context)
    (t1 t2 t3 : List TraceEv)
    (hready : isReady exts = true)
    (hp : runPre (preGroup exts) 0 ctx = (t1, Except.ok c1))
    (hq : runEnrich (enrGroup exts) 0 c1 = (t2, c2))
    (hd : runDest (dstGroup exts) c2.seal = (t3, Except.error ())) :
    flushOne exts ctx = (t1 ++ t2 ++ [TraceEv.sealMark c2.seal] ++ t3, Except.error ()) := by
  unfold flushOne
  rw [hready, hp]
  dsimp only
  rw [hq]
  dsimp only
  rw [hd]
  rfl

theorem flushOne_eq_destOk (exts : List Extension) (ctx c1 c2 : Context)
    (t1 t2 t3 : List TraceEv)
    (hready : isReady exts = true)
    (hp : runPre (preGroup exts) 0 ctx = (t1, Except.ok c1))
    (hq : runEnrich (enrGroup exts) 0 c1 = (t2, c2))
    (hd : runDest (dstGroup exts) c2.seal = (t3, Except.ok ())) :
    flushOne exts ctx =
      (t1 ++ t2 ++ [TraceEv.sealMark c2.seal] ++ t3 ++ [TraceEv.stat "message_delivered"],
       Except.ok (some c2.seal)) := by
  unfold flushOne
  rw [hready, hp]
  dsimp only
  rw [hq]
  dsimp only
  rw [hd]
  rfl

theorem runPre_trace_entries (xts : List Extension) :
    ∀ (i : Nat) (c : Context) (e : TraceEv), e ∈ (runPre xts i c).1 →
      ∃ j d, e = TraceEv.proc PluginType.before j d := by
  induction xts with
  | nil => intro i c e he; simp [runPre] at he
  | cons xt rest ih =>
    intro i c e he
    unfold runPre at he
    cases hx : ensure c xt with
    | error er =>
      rw [hx] at he
      simp at he
      exact ⟨i, c, he⟩
    | ok c2 =>
      rw [hx] at he
      simp at he
      rcases he with he | he
      · exact ⟨i, c, he⟩
      · exact ih (i + 1) c2 e he

theorem runEnrich_trace_entries (xts : List Extension) :
    ∀ (i : Nat) (c : Context) (e : TraceEv), e ∈ (runEnrich xts i c).1 →
      ∃ j d, e = TraceEv.proc PluginType.enrichment j d := by
  induction xts with
  | nil => intro i c e he; simp [runEnrich] at he
  | cons xt rest ih =>
    intro i c e he
    unfold runEnrich at he
    simp at he
    rcases he with he | he
    · exact ⟨i, c, he⟩
    · exact ih (i + 1) _ e he

theorem flushOne_trace_entries (exts : List Extension) (ctx : Context) (e : TraceEv)
    (he : e ∈ (flushOne exts ctx).1) :
    (∃ s j d, e = TraceEv.proc s j d) ∨ (∃ d, e = TraceEv.sealMark d) ∨
      e = TraceEv.stat "message_delivered" := by
  cases hready : isReady exts with
  | false =>
    rw [flushOne_eq_notReady exts ctx hready] at he
    simp at he
  | true =>
    rcases hp : runPre (preGroup exts) 0 ctx with ⟨t1, r1⟩
    cases r1 with
    | error er =>
      cases er
      rw [flushOne_eq_preFail exts ctx t1 hready hp] at he
      obtain ⟨j, d, hjd⟩ := runPre_trace_entries (preGroup exts) 0 ctx e (by rw [hp]; exact he)
      exact Or.inl ⟨PluginType.before, j, d, hjd⟩
    | ok c1 =>
      rcases hq : runEnrich (enrGroup exts) 0 c1 with ⟨t2, c2⟩
      rcases hd : runDest (dstGroup exts) c2.seal with ⟨t3, rd⟩
      have hd3 : ∀ x ∈ t3, ∃ i, x = TraceEv.proc PluginType.destination i c2.seal := by
        intro x hx
        have hx2 : x ∈ (runDest (dstGroup exts) c2.seal).1 := by rw [hd]; exact hx
        rw [runDest_trace] at hx2
        simp at hx2
        obtain ⟨i, _, hxe⟩ := hx2
        exact ⟨i, hxe.symm⟩
      have hsplit : e ∈ t1 ∨ e ∈ t2 ∨ e = TraceEv.sealMark c2.seal ∨ e ∈ t3 ∨
          e = TraceEv.stat "message_delivered" := by
        cases rd with
        | error u =>
          cases u
          rw [flushOne_eq_destFail exts ctx c1 c2 t1 t2 t3 hready hp hq hd] at he
          simp at he
          tauto
        | ok u =>
          cases u
          rw [flushOne_eq_destOk exts ctx c1 c2 t1 t2 t3 hready hp hq hd] at he
          simp at he
          tauto
      rcases hsplit with hm | hm | hm | hm | hm
      · obtain ⟨j, d, hjd⟩ := runPre_trace_entries (preGroup exts) 0 ctx e (by rw [hp]; exact hm)
        exact Or.inl ⟨PluginType.before, j, d, hjd⟩
      · obtain ⟨j, d, hjd⟩ := runEnrich_trace_entries (enrGroup exts) 0 c1 e (by rw [hq]; exact hm)
        exact Or.inl ⟨PluginType.enrichment, j, d, hjd⟩
      · exact Or.inr (Or.inl ⟨c2.seal, hm⟩)
      · obtain ⟨i, hi⟩ := hd3 e hm
        exact Or.inl ⟨PluginType.destination, i, c2.seal, hi⟩
      · exact Or.inr (Or.inr hm)

theorem flushOne_trace_no_failStat (exts : List Extension) (ctx : Context) :
    ((flushOne exts ctx).1).count (TraceEv.stat "delivery_failed") = 0 := by
  rw [List.count_eq_zero]
  intro hmem
  rcases flushOne_trace_entries exts ctx _ hmem with ⟨s, j, d, h⟩ | ⟨d, h⟩ | h
  · exact TraceEv.noConfusion h
  · exact TraceEv.noConfusion h
  · have hs : "delivery_failed" = "message_delivered" := TraceEv.stat.inj h
    simp at hs

theorem runDest_trace_entries (xts : List Extension) (c : Context) :
    ∀ e ∈ (runDest xts c).1, ∃ i, e = TraceEv.proc PluginType.destination i c := by
  intro e he
  rw [runDest_trace] at he
  simp at he
  obtain ⟨i, _, hie⟩ := he
  exact ⟨i, hie.symm⟩

/-! The claims. -/

/-- C1 (amended): with two destination plugins, one always failing and one
always succeeding, the event is re-enqueued after the first pipeline attempt
(a destination failure aborts the whole event) even though one destination
already received it, and the next iteration of the drain loop — within the
same `flush()` call, since `flush()` never returns here — delivers the event
to both destination plugins again, including the one that already
succeeded. -/
theorem c1_redelivers_to_both_destinations :
    flushAux [destFail, destOk] 1 [ev 0] [] [] =
      (false, [ev 0], [],
       [TraceEv.sealMark (ev 0).seal,
        TraceEv.proc PluginType.destination 0 (ev 0).seal,
        TraceEv.proc PluginType.destination 1 (ev 0).seal,
        TraceEv.stat "delivery_failed"])
    ∧ flushAux [destFail, destOk] 2 [ev 0] [] [] =
      (false, [ev 0], [],
       [TraceEv.sealMark (ev 0).seal,
        TraceEv.proc PluginType.destination 0 (ev 0).seal,
        TraceEv.proc PluginType.destination 1 (ev 0).seal,
        TraceEv.stat "delivery_failed",
        TraceEv.sealMark (ev 0).seal,
        TraceEv.proc PluginType.destination 0 (ev 0).seal,
        TraceEv.proc PluginType.destination 1 (ev 0).seal,
        TraceEv.stat "delivery_failed"]) :=
  ⟨rfl, rfl⟩

/-- C1 counterexample: in the claimed scenario `flush()` never returns — the
re-enqueued event keeps the queue nonempty, so the `pWhile` drain loop never
exits and there is no "after running flush() once" nor any "second
flush()". -/
theorem c1_flush_never_returns : ¬ flushReturns [destFail, destOk] [ev 0] := by
  rintro ⟨n, hn⟩
  rw [flushAux_stuck [destFail, destOk] (fun c => flushOne_destsFail_err c)
    n [ev 0] [] [] (by simp)] at hn
  exact Bool.noConfusion hn

/-- C2 (amended): with a single always-failing pre plugin, the failure aborts
the pipeline for the event, and after the first iteration of the drain loop
the event is re-enqueued (pending buffer length back to 1) with the flushed
list still empty; `flush()` itself never returns in this scenario. -/
theorem c2_pre_failure_reenqueues :
    flushAux [beforeFail] 1 [ev 1] [] [] =
      (false, [ev 1], [],
       [TraceEv.proc PluginType.before 0 (ev 1), TraceEv.stat "delivery_failed"])
    ∧ (flushAux [beforeFail] 1 [ev 1] [] []).2.1.length = 1
    ∧ (flushAux [beforeFail] 1 [ev 1] [] []).2.2.1 = [] :=
  ⟨rfl, rfl, rfl⟩

/-- C2 counterexample: `flush()` never returns in the claimed scenario, so
"running flush() once" never finishes and no flushed list is ever
returned. -/
theorem c2_flush_never_returns : ¬ flushReturns [beforeFail] [ev 1] := by
  rintro ⟨n, hn⟩
  rw [flushAux_stuck [beforeFail] (fun c => flushOne_beforeFail_err c)
    n [ev 1] [] [] (by simp)] at hn
  exact Bool.noConfusion hn

/-- C5 (amended): on a pipeline error the event is re-enqueued at the tail of
the pending buffer and the failure increments `delivery_failed` exactly once
for that attempt; but the drain loop of the same `flush()` call continues
while the buffer is nonempty, so the failed event is picked up again within
the current call, not only by a future flush attempt. -/
theorem c5_reenqueue_tail_retry_same_call (exts : List Extension) (ctx : Context)
    (rest fl : List Context)
    (h : (flushOne exts ctx).2 = Except.error ()) :
    flushIter exts ctx rest fl =
      (rest ++ [ctx], fl, (flushOne exts ctx).1 ++ [TraceEv.stat "delivery_failed"])
    ∧ ((flushOne exts ctx).1 ++ [TraceEv.stat "delivery_failed"]).count
        (TraceEv.stat "delivery_failed") = 1
    ∧ ∀ (n : Nat) (tr : List TraceEv),
        flushAux exts (n + 1) (ctx :: rest) fl tr =
          flushAux exts n (rest ++ [ctx]) fl
            (tr ++ ((flushOne exts ctx).1 ++ [TraceEv.stat "delivery_failed"])) := by
  have hi := flushIter_of_error exts ctx rest fl h
  refine ⟨hi, ?_, ?_⟩
  · rw [List.count_append, flushOne_trace_no_failStat]
    simp
  · intro n tr
    simp only [flushAux, hi]

/-- C5 witness: the amended statement at a concrete failing plugin and
event. -/
theorem c5_witness :
    flushIter [beforeFail] (ev 4) [] [] =
      ([ev 4], [], (flushOne [beforeFail] (ev 4)).1 ++ [TraceEv.stat "delivery_failed"]) :=
  (c5_reenqueue_tail_retry_same_call [beforeFail] (ev 4) [] []
    (flushOne_beforeFail_err (ev 4))).1

/-- C5 counterexample: within a single `flush()` call (fuel 2 of the drain
loop) the same failed event is processed twice — two `process` calls and two
`delivery_failed` increments — refuting "within the current flush() call the
failed event is never processed again". -/
theorem c5_processed_twice_same_call :
    (flushAux [beforeFail] 2 [ev 3] [] []).2.2.2 =
      [TraceEv.proc PluginType.before 0 (ev 3), TraceEv.stat "delivery_failed",
       TraceEv.proc PluginType.before 0 (ev 3), TraceEv.stat "delivery_failed"]
    ∧ procCount (flushAux [beforeFail] 2 [ev 3] [] []).2.2.2 = 2 :=
  ⟨rfl, rfl⟩

/-- C10: `flush()` terminates if and only if every pending event's pipeline
attempt succeeds — where the not-ready no-op (`Except.ok none`) counts as a
success; and a single event whose pipeline attempt fails on every try, even
sitting in a queue of otherwise succeeding events, causes the `flush()` call
itself to loop forever: the failed event is pushed back onto the very queue
whose length the loop condition inspects, so for every fuel bound the drain
loop has not exited. -/
theorem c10_flush_terminates_iff_all_succeed (exts : List Extension) (q : List Context) :
    (flushReturns exts q ↔ ∀ c ∈ q, ∃ v, (flushOne exts c).2 = Except.ok v)
    ∧ (∀ c ∈ q, (flushOne exts c).2 = Except.error () →
        ∀ (n : Nat) (fl : List Context) (tr : List TraceEv),
          (flushAux exts n q fl tr).1 = false) := by
  constructor
  · constructor
    · intro hret c hc
      cases hres : (flushOne exts c).2 with
      | ok v => exact ⟨v, rfl⟩
      | error u =>
        cases u
        exfalso
        obtain ⟨n, hn⟩ := hret
        rw [flushAux_stuck_mem exts n q [] [] c hc hres] at hn
        exact Bool.noConfusion hn
    · intro h
      exact ⟨q.length, flushAux_all_ok exts q [] [] h⟩
  · intro c hc herr n fl tr
    exact flushAux_stuck_mem exts n q fl tr c hc herr

/-- C10 witness: a queue holding one forever-failing event (payload 0) next
to an event the same destination delivers fine diverges at every tried fuel,
while an all-succeeding queue terminates. -/
theorem c10_witness :
    (flushAux [destFailZero] 5 [ev 1, ev 0] [] []).1 = false
    ∧ flushReturns [destOk] [ev 5] := by
  constructor
  · exact (c10_flush_terminates_iff_all_succeed [destFailZero] [ev 1, ev 0]).2
      (ev 0) (by simp) rfl 5 [] []
  · exact (c10_flush_terminates_iff_all_succeed [destOk] [ev 5]).1.mpr
      (fun c hc => by
        simp at hc
        subst hc
        exact ⟨some ((ev 5).seal), rfl⟩)

/-- C3: if any registered plugin reports not loaded, every event drained by
`flush()` skips the pipeline entirely (the trace records no `process` call)
yet counts as a success: after `q.length` loop iterations the drain loop has
exited, every event is in the flushed list in order, the pending buffer is
empty (nothing re-enqueued), and the extra trace is only the per-event
`delivered` gauge. -/
theorem c3_not_ready_noop_counts_as_flushed (exts : List Extension) (q : List Context)
    (h : ∃ p ∈ exts, p.loaded = false) :
    flushAux exts q.length q [] [] =
      (true, [], q, List.replicate q.length (TraceEv.stat "delivered"))
    ∧ procCount (List.replicate q.length (TraceEv.stat "delivered")) = 0 := by
  obtain ⟨p, hm, hl⟩ := h
  have hr := isReady_false_of_unloaded exts p hm hl
  constructor
  · simpa using flushAux_notReady exts hr q [] []
  · exact procCount_replicate_stat q.length "delivered"

/-- C3 witness: the not-loaded no-op at a concrete plugin and a one-event
queue. -/
theorem c3_witness :
    flushAux [notLoaded] [ev 2].length [ev 2] [] [] =
      (true, [], [ev 2], List.replicate [ev 2].length (TraceEv.stat "delivered"))
    ∧ procCount (List.replicate [ev 2].length (TraceEv.stat "delivered")) = 0 :=
  c3_not_ready_noop_counts_as_flushed [notLoaded] [ev 2] ⟨notLoaded, by simp, rfl⟩

/-- C4: with one always-failing enrichment plugin and one always-succeeding
destination plugin, one dispatched event is delivered in a single loop
iteration: the enrichment failure is absorbed (the destination receives the
event sealed with its original payload, untouched by the failed plugin), the
flushed list has length 1, and the queue drains. -/
theorem c4_enrichment_failure_absorbed (c : Context) :
    flushAux [enrichFail, destOk] 1 [c] [] [] =
      (true, [], [c],
       [TraceEv.proc PluginType.enrichment 0 c,
        TraceEv.sealMark c.seal,
        TraceEv.proc PluginType.destination 0 c.seal,
        TraceEv.stat "message_delivered",
        TraceEv.stat "delivered"])
    ∧ (c.seal).payload = c.payload
    ∧ (flushAux [enrichFail, destOk] 1 [c] [] []).2.2.1.length = 1 :=
  ⟨rfl, rfl, rfl⟩

/-- C6: dispatch never fails and resolves with the very event passed in, and
any sequence of dispatches with no intervening flush leaves the pending
buffer holding exactly the dispatched events in FIFO order (appended to
whatever was queued before), touching neither archive nor configuration. -/
theorem c6_dispatch_fifo :
    (∀ (st : EventQueue) (cs : List Context),
        (dispatchAll st cs).queue = st.queue ++ cs
        ∧ (dispatchAll st cs).archive = st.archive
        ∧ (dispatchAll st cs).extensions = st.extensions)
    ∧ (∀ (st : EventQueue) (c : Context), (dispatch st c).2.1 = c)
    ∧ (∀ (exts : List Extension) (cs : List Context),
        (dispatchAll (EventQueue.init exts) cs).queue = cs) := by
  have main : ∀ (cs : List Context) (st : EventQueue),
      (dispatchAll st cs).queue = st.queue ++ cs
      ∧ (dispatchAll st cs).archive = st.archive
      ∧ (dispatchAll st cs).extensions = st.extensions := by
    intro cs
    induction cs with
    | nil => intro st; simp [dispatchAll]
    | cons c cs ih =>
      intro st
      obtain ⟨h1, h2, h3⟩ := ih ({ st with queue := st.queue ++ [c] })
      refine ⟨?_, ?_, ?_⟩ <;> simp [dispatchAll, dispatch, h1, h2, h3]
  refine ⟨fun st cs => main cs st, fun st c => rfl, fun exts cs => ?_⟩
  simpa [EventQueue.init] using (main cs (EventQueue.init exts)).1

/-- C7: `flush()` on an engine whose pending buffer is empty exits at once
with an empty flushed list, no error, no trace, and the engine state —
pending buffer, archive, and plugin configuration — unchanged. -/
theorem c7_flush_empty_noop (st : EventQueue) (n : Nat) (h : st.queue = []) :
    flushQ st n = (true, st, [], []) := by
  obtain ⟨q, ar, xs⟩ := st
  simp only at h
  subst h
  have hq : flushAux xs n ([] : List Context) [] [] = (true, [], [], []) := by
    cases n <;> simp [flushAux]
  simp [flushQ, hq]

/-- C7 witness: the empty flush at a concrete engine. -/
theorem c7_witness : flushQ (EventQueue.init [destOk]) 3 = (true, EventQueue.init [destOk], [], []) :=
  c7_flush_empty_noop (EventQueue.init [destOk]) 3 rfl

/-- C8: when the pipeline actually runs (all plugins loaded, pre stage
succeeded producing `c1`), the seal transition sits in the `flushOne` trace
exactly after the whole enrichment segment and before the whole destination
segment; every destination `process` call receives the very same sealed
event; that event's flag is sealed; and on success `flushOne` returns that
sealed event itself — nothing after the seal alters it. -/
theorem c8_seal_between_enrich_and_dest (exts : List Extension) (ctx c1 : Context)
    (hready : isReady exts = true)
    (hpre : (runPre (preGroup exts) 0 ctx).2 = Except.ok c1) :
    ∃ tail,
      ((flushOne exts ctx).1 =
        (runPre (preGroup exts) 0 ctx).1 ++ (runEnrich (enrGroup exts) 0 c1).1
          ++ [TraceEv.sealMark ((runEnrich (enrGroup exts) 0 c1).2.seal)]
          ++ (runDest (dstGroup exts) ((runEnrich (enrGroup exts) 0 c1).2.seal)).1 ++ tail)
      ∧ (tail = [] ∨ tail = [TraceEv.stat "message_delivered"])
      ∧ (∀ e ∈ (runDest (dstGroup exts) ((runEnrich (enrGroup exts) 0 c1).2.seal)).1,
          ∃ i, e = TraceEv.proc PluginType.destination i ((runEnrich (enrGroup exts) 0 c1).2.seal))
      ∧ ((runEnrich (enrGroup exts) 0 c1).2.seal).sealedFlag = true
      ∧ (∀ r, (flushOne exts ctx).2 = Except.ok (some r) →
          r = (runEnrich (enrGroup exts) 0 c1).2.seal) := by
  rcases hp : runPre (preGroup exts) 0 ctx with ⟨t1, r1⟩
  rw [hp] at hpre
  simp at hpre
  subst hpre
  rcases hq : runEnrich (enrGroup exts) 0 c1 with ⟨t2, c2⟩
  rcases hd : runDest (dstGroup exts) c2.seal with ⟨t3, rd⟩
  have hdest : ∀ e ∈ t3, ∃ i, e = TraceEv.proc PluginType.destination i c2.seal := by
    intro e he
    exact runDest_trace_entries (dstGroup exts) c2.seal e (by rw [hd]; exact he)
  cases rd with
  | error u =>
    cases u
    have heq := flushOne_eq_destFail exts ctx c1 c2 t1 t2 t3 hready hp hq hd
    refine ⟨[], ?_, Or.inl rfl, ?_, rfl, ?_⟩
    · rw [heq]
      simp
    · exact hdest
    · intro r hr
      rw [heq] at hr
      simp at hr
  | ok u =>
    cases u
    have heq := flushOne_eq_destOk exts ctx c1 c2 t1 t2 t3 hready hp hq hd
    refine ⟨[TraceEv.stat "message_delivered"], ?_, Or.inr rfl, ?_, rfl, ?_⟩
    · rw [heq]
    · exact hdest
    · intro r hr
      rw [heq] at hr
      simp at hr
      exact hr.symm

/-- C8 witness: the sealing discipline at a concrete single-destination
engine and event. -/
theorem c8_witness :
    ∃ tail,
      ((flushOne [destOk] (ev 6)).1 =
        (runPre (preGroup [destOk]) 0 (ev 6)).1 ++ (runEnrich (enrGroup [destOk]) 0 (ev 6)).1
          ++ [TraceEv.sealMark ((runEnrich (enrGroup [destOk]) 0 (ev 6)).2.seal)]
          ++ (runDest (dstGroup [destOk]) ((runEnrich (enrGroup [destOk]) 0 (ev 6)).2.seal)).1 ++ tail)
      ∧ (tail = [] ∨ tail = [TraceEv.stat "message_delivered"])
      ∧ (∀ e ∈ (runDest (dstGroup [destOk]) ((runEnrich (enrGroup [destOk]) 0 (ev 6)).2.seal)).1,
          ∃ i, e = TraceEv.proc PluginType.destination i ((runEnrich (enrGroup [destOk]) 0 (ev 6)).2.seal))
      ∧ ((runEnrich (enrGroup [destOk]) 0 (ev 6)).2.seal).sealedFlag = true
      ∧ (∀ r, (flushOne [destOk] (ev 6)).2 = Except.ok (some r) →
          r = (runEnrich (enrGroup [destOk]) 0 (ev 6)).2.seal) :=
  c8_seal_between_enrich_and_dest [destOk] (ev 6) (ev 6) rfl rfl

/-- C9: the archive buffer is never populated — `init` constructs it empty,
`dispatch`, `register` and `flush` all leave it untouched (`flushOne` never
sees the state at all), so in every reachable engine state the archive is
empty and no event is in both the pending buffer and the archive. -/
theorem c9_archive_never_populated :
    (∀ exts, (EventQueue.init exts).archive = [])
    ∧ (∀ (st : EventQueue) (c : Context), (dispatch st c).1.archive = st.archive)
    ∧ (∀ (st : EventQueue) (x : Extension), (register st x).archive = st.archive)
    ∧ (∀ (st : EventQueue) (n : Nat), (flushQ st n).2.1.archive = st.archive)
    ∧ (∀ st, Reachable st → st.archive = []
        ∧ ∀ c : Context, ¬(c ∈ st.queue ∧ c ∈ st.archive)) := by
  refine ⟨fun _ => rfl, fun _ _ => rfl, fun _ _ => rfl, fun _ _ => rfl, ?_⟩
  intro st h
  have ha : st.archive = [] := by
    induction h with
    | init exts => rfl
    | dispatchStep st c _ ih => simpa [dispatch] using ih
    | registerStep st x _ ih => simpa [register] using ih
    | flushStep st n _ ih => simpa [flushQ] using ih
  refine ⟨ha, fun c hc => ?_⟩
  rw [ha] at hc
  exact absurd hc.2 (List.not_mem_nil c)

/-- C9 witness: the reachable-state conclusion at a freshly constructed
engine. -/
theorem c9_witness :
    (EventQueue.init [destOk]).archive = []
    ∧ ¬(ev 0 ∈ (EventQueue.init [destOk]).queue ∧ ev 0 ∈ (EventQueue.init [destOk]).archive) := by
  have h := (c9_archive_never_populated.2.2.2.2 (EventQueue.init [destOk])
    (Reachable.init [destOk]))
  exact ⟨h.1, h.2 (ev 0)⟩

end AnalyticsNext
